import Mathlib

/-!
Verification of the ArcHacks field-mapping editor (`EZFieldMap`) and the
mini-SQL `parse` function.  Python strings are modelled as `List Char`;
the regular-expression operations used by the source are modelled as
executable scanning functions over character lists, each faithful to the
specific pattern the source applies (documented at each definition).
-/

abbrev Str := List Char

/-- Python `\s` for byte strings: space, tab, newline, carriage return,
vertical tab, form feed. -/
def pyIsSpace (c : Char) : Bool :=
  c = ' ' || c = '\t' || c = '\n' || c = '\r' || c = '\x0b' || c = '\x0c'

/-- Python `str.strip()`: remove leading and trailing whitespace. -/
def pyStrip (s : Str) : Str :=
  ((s.dropWhile pyIsSpace).reverse.dropWhile pyIsSpace).reverse

/-- First phase of `re.sub("\s+", " ", s)`: every whitespace character
becomes a plain space. -/
def normSpace (s : Str) : Str :=
  s.map (fun c => if pyIsSpace c then ' ' else c)

/-- Second phase of `re.sub("\s+", " ", s)`: collapse runs of spaces
(when two spaces are adjacent the first is dropped). -/
def squeeze : Str → Str
  | [] => []
  | a :: rest =>
    match rest with
    | [] => [a]
    | b :: t =>
      if a = ' ' && b = ' ' then squeeze (b :: t) else a :: squeeze (b :: t)

/-- `re.sub("\s+", " ", s.strip())` as done at the top of `parse`. -/
def cleanSql (s : Str) : Str := squeeze (normSpace (pyStrip s))

/-- Python 2 `\w` on byte strings: `[a-zA-Z0-9_]`. -/
def isWordChar (c : Char) : Bool := c.isAlphanum || c = '_'

/-- Case-insensitive prefix test; the pattern is given in lowercase. -/
def isPrefixCI : Str → Str → Bool
  | [], _ => true
  | _ :: _, [] => false
  | p :: ps, c :: cs => p = c.toLower && isPrefixCI ps cs

/-- All start positions where the lowercase pattern occurs
case-insensitively in `s`. -/
def positionsCI (pat s : Str) : List Nat :=
  (List.range (s.length + 1)).filter (fun i => isPrefixCI pat (s.drop i))

/-- Leftmost case-insensitive occurrence of `pat` in `s`. -/
def firstCI (pat s : Str) : Option Nat := (positionsCI pat s).head?

/-- Rightmost case-insensitive occurrence of `pat` at position `≥ i0`. -/
def lastCIFrom (pat s : Str) (i0 : Nat) : Option Nat :=
  ((positionsCI pat s).filter (fun q => i0 ≤ q)).getLast?

/-- Substring `s[a:b]` (Python slice). -/
def pySlice (s : Str) (a b : Nat) : Str := (s.take b).drop a

/-- Python `str.split(sep)` for a one-character separator (used with `;`,
`.` and a single space by the source): keeps empty pieces,
`"".split(c) = [""]`. -/
def splitChar (sep : Char) : Str → List Str
  | [] => [[]]
  | c :: cs =>
    if c = sep then [] :: splitChar sep cs
    else
      match splitChar sep cs with
      | [] => [[c]]
      | h :: t => (c :: h) :: t

/-- `sep.join(l)` for a one-character separator. -/
def joinChar (sep : Char) : List Str → Str
  | [] => []
  | [x] => x
  | x :: xs => x ++ sep :: joinChar sep xs

/-- Worker for `splitOnLit`, structurally recursive on a fuel bound
that always dominates the length of the remaining text. -/
def splitOnLitF (sep : Str) : Nat → Str → List Str
  | 0, s => [s]
  | _ + 1, [] => [[]]
  | f + 1, c :: cs =>
    if sep.isPrefixOf (c :: cs) then
      [] :: splitOnLitF sep f ((c :: cs).drop sep.length)
    else
      match splitOnLitF sep f cs with
      | [] => [[c]]
      | h :: t => (c :: h) :: t

/-- Python `str.split(sep)` for a multi-character separator (used with
`", "` and `" = "` by the source); `sep` is assumed nonempty. -/
def splitOnLit (sep : Str) (s : Str) : List Str :=
  if sep = [] then [s] else splitOnLitF sep s.length s

/-- Worker for `replaceAllLit`, structurally recursive on fuel. -/
def replaceAllLitF (pat rep : Str) : Nat → Str → Str
  | 0, s => s
  | _ + 1, [] => []
  | f + 1, c :: cs =>
    if pat.isPrefixOf (c :: cs) then
      rep ++ replaceAllLitF pat rep f ((c :: cs).drop pat.length)
    else
      c :: replaceAllLitF pat rep f cs

/-- Python `str.replace(pat, rep)`: replace every non-overlapping
occurrence, scanning left to right; `pat` is assumed nonempty (the
source never calls it with an empty pattern). -/
def replaceAllLit (pat rep : Str) (s : Str) : Str :=
  if pat = [] then s else replaceAllLitF pat rep s.length s

/-- Worker for `removeAllCI`, structurally recursive on fuel. -/
def removeAllCIF (pat : Str) : Nat → Str → Str
  | 0, s => s
  | _ + 1, [] => []
  | f + 1, c :: cs =>
    if isPrefixCI pat (c :: cs) then
      removeAllCIF pat f ((c :: cs).drop pat.length)
    else
      c :: removeAllCIF pat f cs

/-- `re.sub("(?i)" ++ pat, "", s)` for a literal lowercase pattern:
delete every case-insensitive occurrence, scanning left to right
non-overlapping (used with `" group"` and `" having"`). -/
def removeAllCI (pat : Str) (s : Str) : Str :=
  if pat = [] then s else removeAllCIF pat s.length s

/-- Python `list.index(x)`: index of the first occurrence.  The source
only calls it on values guaranteed present; on an absent value this
model returns the length (the source would raise `ValueError`, a case
none of its call sites can reach). -/
def firstIdxOf [DecidableEq α] : List α → α → Nat
  | [], _ => 0
  | y :: ys, x => if y = x then 0 else firstIdxOf ys x + 1

/-- Python `list.insert(pos, x)` for `0 ≤ pos`: positions beyond the end
append. -/
def pyInsert : List α → Nat → α → List α
  | l, 0, x => x :: l
  | [], _ + 1, x => [x]
  | c :: cs, n + 1, x => c :: pyInsert cs n x

/-- The Python exceptions the modelled code can raise. -/
inductive PyErr where
  | indexError
  | typeError
  | attributeError
deriving DecidableEq, Repr

/-- Python `l[n]` with an integer index: negative indices wrap once,
anything still out of range raises `IndexError`. -/
def pyGetIdx (l : List α) (n : Int) : Except PyErr α :=
  let i : Int := if n < 0 then n + l.length else n
  if i < 0 then .error .indexError
  else
    match l[i.toNat]? with
    | some a => .ok a
    | none => .error .indexError

/-!
## EZFieldMap (src/_core.py lines 361-441, identical in src/_envs.py)

A field mapping is the serialized string `self._str`; its entries are
the `;`-separated field maps.  The operations below are the source's
methods, each acting on the serialized string.
-/

/-- `EZFieldMap.as_list`: the mapping split on `;`. -/
def as_list (M : Str) : List Str := splitChar ';' M

/-- `EZFieldMap.current_order`: pairs of first-occurrence index and the
text before the first space of each entry. -/
def current_order (M : Str) : List (Nat × Str) :=
  (as_list M).map (fun i => (firstIdxOf (as_list M) i, (splitChar ' ' i).headD []))

/-- `EZFieldMap.field_count`: `len(current_order)`. -/
def field_count (M : Str) : Nat := (current_order M).length

/-- `re.findall('"(.*)"', n)[0]` for one entry: the regex `.` never
matches a newline, so the engine succeeds at the first `"` that has a
closing `"` later on the same line, and the greedy capture runs to the
last such `"`; `IndexError` (`none`) when no line holds two quotes. -/
def quoteCapture (n : Str) : Option Str :=
  (List.range n.length).findSome? (fun i =>
    if (n.drop i).head? = some '\"' then
      let line := (n.drop (i + 1)).takeWhile (fun c => c ≠ '\n')
      let qs := (List.range line.length).filter
        (fun j => (line.drop j).head? = some '\"')
      match qs.getLast? with
      | some q => some (line.take q)
      | none => none
    else none)

/-- `EZFieldMap.field_names`: the quoted name of every entry, raising
`IndexError` on the first entry without one. -/
def field_names (M : Str) : Except PyErr (List Str) :=
  (as_list M).mapM (fun n =>
    match quoteCapture n with
    | some x => Except.ok x
    | none => Except.error PyErr.indexError)

/-- `EZFieldMap.is_safe`: `all([len(f) <= 10 for f in self.field_names])`. -/
def is_safe (M : Str) : Except PyErr Bool :=
  (field_names M).map (fun ns => ns.all (fun f => f.length ≤ 10))

/-- The loop body of `EZFieldMap.reorder`: for each `n` in `new_order`,
`li.insert(new_order.index(n), self.as_list[n])`. -/
def reorderLoop (asl : List Str) (no : List Int) : List Int → List Str → Except PyErr (List Str)
  | [], li => .ok li
  | n :: rest, li =>
    match pyGetIdx asl n with
    | .error e => .error e
    | .ok entry => reorderLoop asl no rest (pyInsert li (firstIdxOf no n) entry)

/-- `EZFieldMap.reorder`: wrong-length list with `drop=False` raises
`AttributeError`; otherwise the entries are gathered into a local list
and joined with `;`.  An `error` result means the exception was raised
before `self._str` was reassigned. -/
def reorder (M : Str) (no : List Int) (drop : Bool) : Except PyErr Str :=
  if !drop && no.length != field_count M then .error .attributeError
  else (reorderLoop (as_list M) no no []).map (joinChar ';')

/-- The serialized mapping after a `reorder` call: unchanged when the
call raised, because the reordered list is built in the local `li` and
written back only after the loop finishes. -/
def reorderPost (M : Str) (no : List Int) (drop : Bool) : Str :=
  match reorder M no drop with
  | .ok s => s
  | .error _ => M

/-!
## EZFieldMap.rename_field

The source builds the pattern `"{}(?!,)".format(regex_name)` where
`regex_name` is `field_name` with `$.` and `$_` backslash-escaped, and
runs `re.sub(pattern, new_name, self._str)`.  After that escaping the
pattern is a sequence of single-character atoms followed by the
negative lookahead `(?!,)`: a backslash-escaped character or a word
character or space matches itself literally, while an unescaped `.`
(a dot in the field name that no `$` preceded) stays a live regex
wildcard matching any character except a newline.  `patAtoms` recovers
that atom sequence and `subNotComma` executes the substitution.
Patterns with other metacharacters (an unescaped `$` acts as an
anchor), backslashes in the name itself, or nothing at all are outside
the modelled fragment (`rename_field` returns `none` for them); the
replacement text `new_name` is inserted literally, which is faithful
whenever it contains no backslash.
-/

/-- `re.sub("\$\.", "\\$\\.", fn)` then `re.sub("\$_", "\\$_", fn)`:
escape the join-qualifier separators. -/
def escapeJoinSeps (fn : Str) : Str :=
  replaceAllLit ('$' :: '_' :: [])
    ('\\' :: '$' :: '_' :: [])
    (replaceAllLit ('$' :: '.' :: [])
      ('\\' :: '$' :: '\\' :: '.' :: []) fn)

/-- One single-character atom of the compiled pattern: a literal
character, or the `.` wildcard. -/
inductive PatAtom where
  | lit (c : Char)
  | dot
deriving DecidableEq, Repr

/-- Whether one atom matches one character: a literal matches itself,
the wildcard `.` matches everything except a newline. -/
def atomMatch : PatAtom → Char → Bool
  | .lit a, c => a = c
  | .dot, c => !(c = '\n')

/-- Whether the atom sequence matches a prefix of `s`, one character
per atom. -/
def atomsMatchPre : List PatAtom → Str → Bool
  | [], _ => true
  | _ :: _, [] => false
  | a :: ps, c :: cs => atomMatch a c && atomsMatchPre ps cs

/-- Read a regex pattern back as an atom sequence: a backslash escapes
the next non-alphanumeric character into a literal, an unescaped `.`
is the wildcard, word characters and spaces are literals, anything
else is an unmodelled metacharacter. -/
def patAtoms : Str → Option (List PatAtom)
  | [] => some []
  | c :: rest =>
    if c = '\\' then
      match rest with
      | [] => none
      | d :: rest2 =>
        if d.isAlphanum then none
        else (patAtoms rest2).map (fun l => PatAtom.lit d :: l)
    else if c = '.' then (patAtoms rest).map (fun l => PatAtom.dot :: l)
    else if isWordChar c || c = ' ' then
      (patAtoms rest).map (fun l => PatAtom.lit c :: l)
    else none

/-- `re.sub(pattern ++ "(?!,)", rep, s)` for a nonempty atom sequence:
replace every match of the atoms that is not immediately followed by a
comma, scanning left to right non-overlapping; a failed lookahead
advances one character, exactly as the regex engine does. -/
def subNotCommaF (ats : List PatAtom) (rep : Str) : Nat → Str → Str
  | 0, s => s
  | _ + 1, [] => []
  | f + 1, c :: cs =>
    if atomsMatchPre ats (c :: cs) && ((c :: cs).drop ats.length).head? ≠ some ',' then
      rep ++ subNotCommaF ats rep f ((c :: cs).drop ats.length)
    else
      c :: subNotCommaF ats rep f cs

/-- The substitution itself, driven by a fuel bound that always
dominates the length of the remaining text. -/
def subNotComma (ats : List PatAtom) (rep : Str) (s : Str) : Str :=
  if ats = [] then s else subNotCommaF ats rep s.length s

/-- `EZFieldMap.rename_field` on the serialized mapping `M`. -/
def rename_field (M fn nn : Str) : Option Str :=
  match patAtoms (escapeJoinSeps fn) with
  | some ats => if ats = [] then none else some (subNotComma ats nn M)
  | none => none

/-!
## Mini-SQL parse (src/_core.py lines 821-868)

Each regex the source applies is modelled by a scanning function over
the cleaned character list; `(?i)` patterns compare case-insensitively.
The registered layer names (`TOC.contents.keys()`) are a parameter.
-/

/-- `re.findall("(?i)select (.*) from", sql)[0]`: at the leftmost
occurrence of `select `, the greedy capture up to the last ` from`
after it; `none` when the pattern never matches. -/
def selectCapture (s : Str) : Option Str :=
  let froms := positionsCI (' ' :: 'f' :: 'r' :: 'o' :: 'm' :: []) s
  match (positionsCI ('s' :: 'e' :: 'l' :: 'e' :: 'c' :: 't' :: ' ' :: []) s).find?
      (fun p => froms.any (fun q => p + 7 ≤ q)) with
  | none => none
  | some p =>
    match (froms.filter (fun q => p + 7 ≤ q)).getLast? with
    | none => none
    | some q => some (pySlice s (p + 7) q)

/-- Maximal run of word characters at the head of `s` (a greedy `\w+`
followed by `\b`). -/
def wordRun (s : Str) : Str := s.takeWhile isWordChar

/-- `re.findall("(?i)from (\w+)\b", sql)[0]`: the word after the first
`from ` that is followed by a word character. -/
def fromCapture : Str → Option Str
  | [] => none
  | c :: cs =>
    if isPrefixCI ('f' :: 'r' :: 'o' :: 'm' :: ' ' :: []) (c :: cs) &&
        (((c :: cs).drop 5).head?.map isWordChar).getD false then
      some (wordRun ((c :: cs).drop 5))
    else fromCapture cs

/-- Worker for `joinCaptures`, structurally recursive on fuel. -/
def joinCapturesF : Nat → Str → List Str
  | 0, _ => []
  | _ + 1, [] => []
  | f + 1, c :: cs =>
    if isPrefixCI ('j' :: 'o' :: 'i' :: 'n' :: ' ' :: []) (c :: cs) &&
        (((c :: cs).drop 5).head?.map isWordChar).getD false then
      let w := wordRun ((c :: cs).drop 5)
      w :: joinCapturesF f ((c :: cs).drop (5 + w.length))
    else joinCapturesF f cs

/-- `re.findall("(?i)join (\w+)\b", sql)`: every word after an
occurrence of `join `, scanning left to right non-overlapping. -/
def joinCaptures (s : Str) : List Str := joinCapturesF s.length s

/-- Try `(?i)on (\w+\.\w+ = \w+\.\w+)` at the head of `s`: the capture
and the total matched length.  The word runs are maximal, so no
backtracking can succeed where this fails. -/
def onMatchHere (s : Str) : Option (Str × Nat) :=
  if isPrefixCI ('o' :: 'n' :: ' ' :: []) s then
    let r1 := s.drop 3
    let w1 := wordRun r1
    if w1 = [] then none
    else
      let r2 := r1.drop w1.length
      if r2.head? = some '.' then
        let w2 := wordRun (r2.drop 1)
        if w2 = [] then none
        else
          let r3 := (r2.drop 1).drop w2.length
          if (' ' :: '=' :: ' ' :: []).isPrefixOf r3 then
            let w3 := wordRun (r3.drop 3)
            if w3 = [] then none
            else
              let r4 := (r3.drop 3).drop w3.length
              if r4.head? = some '.' then
                let w4 := wordRun (r4.drop 1)
                if w4 = [] then none
                else
                  let cap := w1 ++ '.' :: w2 ++ ' ' :: '=' :: ' ' :: w3 ++ '.' :: w4
                  some (cap, 3 + cap.length)
              else none
          else none
      else none
  else none

/-- Worker for `onCaptures`, structurally recursive on fuel. -/
def onCapturesF : Nat → Str → List Str
  | 0, _ => []
  | _ + 1, [] => []
  | f + 1, c :: cs =>
    match onMatchHere (c :: cs) with
    | some (cap, len) => cap :: onCapturesF f ((c :: cs).drop (max len 1))
    | none => onCapturesF f cs

/-- `re.findall("(?i)on (\w+\.\w+ = \w+\.\w+)", sql)`: all captures,
scanning left to right non-overlapping. -/
def onCaptures (s : Str) : List Str := onCapturesF s.length s

/-- `"{}".format(x)` for a value that is a string or Python `None`. -/
def formatStr : Option Str → Str
  | none => 'N' :: 'o' :: 'n' :: 'e' :: []
  | some s => s

/-- Case-insensitive substring test: the model of
`re.findall("(?i){}".format(regex), layer)` being nonempty, faithful
for the word-character tokens `parse` feeds it. -/
def substrCI (pat s : Str) : Bool :=
  !(positionsCI (pat.map Char.toLower) s).isEmpty

/-- `layer_by_regex` (src/_core.py lines 330-334): the first registered
layer whose name matches the token; falls off the end (`None`) when
nothing matches. -/
def layer_by_regex (toc : List Str) (r : Str) : Option Str :=
  toc.find? (fun lyr => substrCI r lyr)

/-- The `for jlyr in join_layers` loop of `parse`: Python iterates by
position over the list it is mutating, and each step overwrites the
first element equal to the value just read with the resolved name (or
`None`). -/
def resolveJoinLayers (toc : List Str) (l0 : List (Option Str)) : List (Option Str) :=
  (List.range l0.length).foldl
    (fun l k =>
      match l.get? k with
      | none => l
      | some jlyr => l.set (firstIdxOf l jlyr) (layer_by_regex toc (formatStr jlyr)))
    l0

/-- A value in the `joins` list: originally the captured string, and a
list of the two resolved keys once the loop has processed it. -/
inductive JoinV where
  | s (v : Str)
  | l (v : List Str)
deriving DecidableEq, Repr

/-- The `for j in joins` loop of `parse`: each captured string is split
on `" = "`, each side's text before the first `.` is resolved through
`layer_by_regex` and substituted with `str.replace`; an unresolved
layer makes `replace` receive `None` and raise `TypeError`.  A value
already turned into a list would raise `AttributeError` at `.split`
(unreachable, kept for fidelity). -/
def resolveJoins (toc : List Str) (l0 : List JoinV) : Except PyErr (List JoinV) :=
  (List.range l0.length).foldlM
    (fun l k =>
      match l.get? k with
      | none => .ok l
      | some (.l _) => .error .attributeError
      | some (.s jstr) => do
        let rejoin ← (splitOnLit (' ' :: '=' :: ' ' :: []) jstr).mapM
          (fun jn =>
            let lyr := (splitChar '.' jn).headD []
            match layer_by_regex toc lyr with
            | none => Except.error PyErr.typeError
            | some full => Except.ok (replaceAllLit lyr full jn))
        .ok (l.set (firstIdxOf l (JoinV.s jstr)) (.l rejoin)))
    l0

/-- The first alternative of `(?i)where (.* group)|where (.*$)` at the
leftmost `where `, then `re.sub("(?i) group", "", ...)` on the single
surviving capture; no `where ` at all raises `IndexError` at the `[0]`
index. -/
def whereExtract (s : Str) : Except PyErr Str :=
  match firstCI ('w' :: 'h' :: 'e' :: 'r' :: 'e' :: ' ' :: []) s with
  | none => .error .indexError
  | some p =>
    let grp : Str := ' ' :: 'g' :: 'r' :: 'o' :: 'u' :: 'p' :: []
    let cap :=
      match lastCIFrom grp s (p + 6) with
      | some q => pySlice s (p + 6) (q + 6)
      | none => s.drop (p + 6)
    .ok (removeAllCI grp cap)

/-- `(?i)group by (.* having)|group by (.*$)` guarded by
`if group_by:`, then `re.sub("(?i) having", "", ...)`; `none` when the
pattern never matches. -/
def groupByExtract (s : Str) : Option Str :=
  match firstCI ('g' :: 'r' :: 'o' :: 'u' :: 'p' :: ' ' :: 'b' :: 'y' :: ' ' :: []) s with
  | none => none
  | some p =>
    let hav : Str := ' ' :: 'h' :: 'a' :: 'v' :: 'i' :: 'n' :: 'g' :: []
    let cap :=
      match lastCIFrom hav s (p + 9) with
      | some q => pySlice s (p + 9) (q + 7)
      | none => s.drop (p + 9)
    some (removeAllCI hav cap)

/-- The dictionary `parse` returns after `[r.pop(k) for k in r.keys() if
not r[k]]`: a field is `none` exactly when its value was falsy and the
key was popped.  `return_fields` (a nonempty list) and `sel_layer` (a
nonempty word) are always truthy and therefore always present. -/
structure Directive where
  return_fields : List Str
  sel_layer : Str
  join_layers : Option (List (Option Str))
  joins : Option (List JoinV)
  where_clause : Option Str
  group_by : Option Str
deriving DecidableEq, Repr

/-- `parse(sql)` with the registered layer names `toc` standing for
`TOC.contents.keys()` in iteration order. -/
def parse (toc : List Str) (sqlRaw : Str) : Except PyErr Directive := do
  let sql := cleanSql sqlRaw
  let rf ←
    match selectCapture sql with
    | some c => Except.ok (splitOnLit (',' :: ' ' :: []) c)
    | none => Except.error PyErr.indexError
  let sel ←
    match fromCapture sql with
    | some w => Except.ok w
    | none => Except.error PyErr.indexError
  let jls := resolveJoinLayers toc ((joinCaptures sql).map some)
  let js ← resolveJoins toc ((onCaptures sql).map JoinV.s)
  let w ← whereExtract sql
  let gb := groupByExtract sql
  Except.ok
    { return_fields := rf
      sel_layer := sel
      join_layers := if jls = [] then none else some jls
      joins := if js = [] then none else some js
      where_clause := if w = [] then none else some w
      group_by :=
        match gb with
        | none => none
        | some g => if g = [] then none else some g }

deriving instance DecidableEq for Except

/-!
## Helper lemmas
-/

theorem splitChar_ne_nil (sep : Char) (s : Str) : splitChar sep s ≠ [] := by
  induction s with
  | nil => simp [splitChar]
  | cons c cs ih =>
    simp only [splitChar]
    split
    · simp
    · split
      · simp
      · simp

theorem joinChar_splitChar (sep : Char) (s : Str) :
    joinChar sep (splitChar sep s) = s := by
  induction s with
  | nil => simp [splitChar, joinChar]
  | cons c cs ih =>
    simp only [splitChar]
    by_cases hc : c = sep
    · subst hc
      simp only [if_pos rfl]
      have hne := splitChar_ne_nil c cs
      match hsp : splitChar c cs with
      | [] => exact absurd hsp hne
      | h :: t =>
        rw [hsp] at ih
        simp only [joinChar]
        simp [ih]
    · rw [if_neg hc]
      have hne := splitChar_ne_nil sep cs
      match hsp : splitChar sep cs with
      | [] => exact absurd hsp hne
      | h :: t =>
        rw [hsp] at ih
        cases t with
        | nil => simp only [joinChar] at ih ⊢; rw [ih]
        | cons t0 ts => simp only [joinChar] at ih ⊢; rw [List.cons_append, ih]

theorem field_count_eq_as_list_length (M : Str) :
    field_count M = (as_list M).length := by
  simp [field_count, current_order]

theorem firstIdxOf_range' (m : Nat) :
    ∀ (s j : Nat), j < m →
      firstIdxOf ((List.range' s m).map Int.ofNat) (Int.ofNat (s + j)) = j := by
  induction m with
  | zero => intro s j hj; omega
  | succ m ih =>
    intro s j hj
    rw [List.range'_succ s m 1]
    rw [List.map_cons]
    rw [firstIdxOf]
    by_cases h0 : j = 0
    · subst h0
      simp
    · have hne : Int.ofNat s ≠ Int.ofNat (s + j) := by
        intro h
        have hsj : s = s + j := Int.ofNat.inj h
        omega
      rw [if_neg hne]
      have hj' : j - 1 < m := by omega
      have hstep := ih (s + 1) (j - 1) hj'
      have harg : ((s + 1) + (j - 1) : Nat) = s + j := by omega
      rw [harg] at hstep
      rw [hstep]
      omega

theorem pyGetIdx_in_range (l : List Str) (j : Nat) (h : j < l.length) :
    pyGetIdx l (Int.ofNat j) = .ok l[j] := by
  simp only [pyGetIdx]
  have h0 : ¬(Int.ofNat j < 0) := Int.not_lt.mpr (Int.ofNat_nonneg j)
  simp only [if_neg h0]
  have h2 : (Int.ofNat j).toNat = j := rfl
  rw [h2, List.getElem?_eq_getElem h]

theorem pyInsert_length (l : List Str) (x : Str) :
    pyInsert l l.length x = l ++ [x] := by
  induction l with
  | nil => simp [pyInsert]
  | cons c cs ih => simp [pyInsert, List.length_cons, ih]

theorem reorderLoop_cons_ok (asl : List Str) (no : List Int) (n : Int)
    (rest : List Int) (li : List Str) (a : Str) (h : pyGetIdx asl n = .ok a) :
    reorderLoop asl no (n :: rest) li =
      reorderLoop asl no rest (pyInsert li (firstIdxOf no n) a) := by
  simp [reorderLoop, h]

theorem reorderLoop_identity (asl : List Str) :
    ∀ (m j : Nat), j + m = asl.length →
      reorderLoop asl ((List.range asl.length).map Int.ofNat)
        ((List.range' j m).map Int.ofNat) (asl.take j) = .ok asl := by
  intro m
  induction m with
  | zero =>
    intro j hj
    have hlen : j = asl.length := by omega
    subst hlen
    simp [reorderLoop, List.take_length]
  | succ m ih =>
    intro j hj
    rw [List.range'_succ j m 1, List.map_cons]
    have hjlt : j < asl.length := by omega
    rw [reorderLoop_cons_ok asl _ _ _ _ asl[j] (pyGetIdx_in_range asl j hjlt)]
    have hidx : firstIdxOf ((List.range asl.length).map Int.ofNat)
        (Int.ofNat j) = j := by
      rw [List.range_eq_range' asl.length]
      have hfi := firstIdxOf_range' asl.length 0 j hjlt
      simpa using hfi
    rw [hidx]
    have htk : (asl.take j).length = j := by
      rw [List.length_take]
      omega
    have hins : pyInsert (asl.take j) j asl[j] = asl.take (j + 1) := by
      have h1 := pyInsert_length (asl.take j) asl[j]
      rw [htk] at h1
      rw [h1, List.take_succ, List.getElem?_eq_getElem hjlt]
      rfl
    rw [hins]
    exact ih (j + 1) (by omega)

theorem atomsMatchPre_map_lit (a : Str) :
    ∀ s : Str, atomsMatchPre (a.map PatAtom.lit) s = a.isPrefixOf s := by
  induction a with
  | nil => intro s; cases s <;> rfl
  | cons x xs ih =>
    intro s
    match s with
    | [] => rfl
    | c :: cs =>
      by_cases hxc : x = c
      · simp [atomsMatchPre, atomMatch, List.isPrefixOf, hxc, ih cs]
      · simp [atomsMatchPre, atomMatch, List.isPrefixOf, hxc]

theorem subNotCommaF_lit_self (a : Str) :
    ∀ (f : Nat) (s : Str), subNotCommaF (a.map PatAtom.lit) a f s = s := by
  intro f
  induction f with
  | zero => intro s; rfl
  | succ f ih =>
    intro s
    match s with
    | [] => rfl
    | c :: cs =>
      by_cases hp : (atomsMatchPre (a.map PatAtom.lit) (c :: cs) &&
          ((c :: cs).drop (a.map PatAtom.lit).length).head? ≠ some ',') = true
      · simp only [subNotCommaF, if_pos hp]
        have hpre : a <+: (c :: cs) := by
          have h1 : atomsMatchPre (a.map PatAtom.lit) (c :: cs) = true := by
            simp only [Bool.and_eq_true] at hp
            exact hp.1
          rw [atomsMatchPre_map_lit a (c :: cs)] at h1
          exact List.isPrefixOf_iff_prefix.mp h1
        obtain ⟨t, ht⟩ := hpre
        have hlen : (a.map PatAtom.lit).length = a.length := List.length_map a PatAtom.lit
        rw [hlen, ← ht, List.drop_left, ih t]
      · simp only [subNotCommaF, if_neg hp]
        rw [ih cs]

theorem subNotComma_lit_self (a : Str) (ha : a ≠ []) (s : Str) :
    subNotComma (a.map PatAtom.lit) a s = s := by
  have hne : a.map PatAtom.lit ≠ [] := by
    simp only [ne_eq, List.map_eq_nil_iff]
    exact ha
  simp only [subNotComma, if_neg hne]
  exact subNotCommaF_lit_self a s.length s

theorem pyGetIdx_out_of_range (l : List Str) (n : Int)
    (h : n < -(l.length : Int) ∨ (l.length : Int) ≤ n) :
    pyGetIdx l n = .error .indexError := by
  simp only [pyGetIdx]
  rcases h with h | h
  · have hneg : n < 0 := by omega
    rw [if_pos hneg]
    have hi : n + (l.length : Int) < 0 := by omega
    rw [if_pos hi]
  · have hnneg : ¬(n < 0) := by omega
    rw [if_neg hnneg]
    have hnneg2 : ¬(n < 0) := hnneg
    rw [if_neg hnneg2]
    have hge : l.length ≤ n.toNat := by omega
    rw [List.getElem?_eq_none hge]

theorem pyGetIdx_ok_of_in_range (l : List Str) (n : Int)
    (h : ¬(n < -(l.length : Int) ∨ (l.length : Int) ≤ n)) :
    ∃ a, pyGetIdx l n = .ok a := by
  simp only [pyGetIdx]
  have hlt : (if n < 0 then n + (l.length : Int) else n).toNat < l.length := by
    split <;> omega
  have hnn : ¬((if n < 0 then n + (l.length : Int) else n) < 0) := by
    split <;> omega
  rw [if_neg hnn, List.getElem?_eq_getElem hlt]
  exact ⟨_, rfl⟩

theorem reorderLoop_bad_index (asl : List Str) (no : List Int) :
    ∀ (rest : List Int) (li : List Str),
      (∃ n ∈ rest, n < -(asl.length : Int) ∨ (asl.length : Int) ≤ n) →
      reorderLoop asl no rest li = .error .indexError := by
  intro rest
  induction rest with
  | nil => intro li h; simp at h
  | cons n ns ih =>
    intro li h
    by_cases hb : n < -(asl.length : Int) ∨ (asl.length : Int) ≤ n
    · simp [reorderLoop, pyGetIdx_out_of_range asl n hb]
    · obtain ⟨a, ha⟩ := pyGetIdx_ok_of_in_range asl n hb
      rw [reorderLoop_cons_ok asl no n ns li a ha]
      apply ih
      rcases h with ⟨m, hm, hmb⟩
      rcases List.mem_cons.mp hm with rfl | hmem
      · exact absurd hmb hb
      · exact ⟨m, hmem, hmb⟩

/-!
## Claim theorems
-/

/-- C1: the spec claims every clause other than `select ... from` is
optional and that this very query parses successfully; in fact the
absent `where` clause makes `parse` raise `IndexError` at the unguarded
`[0]` index into the `where` findall (src/_core.py line 845), so the
example query fails even with `T` and `U` registered and resolving to
themselves. -/
theorem c1_group_by_example_raises :
    parse [("T").toList, ("U").toList]
      (("SELECT a FROM T JOIN U ON T.id = U.tid GROUP BY a").toList) =
    .error .indexError := by rfl

/-- C2: reordering with the identity permutation `[0, ..., field_count-1]`
returns the serialized mapping byte-for-byte, and splitting a mapping on
`;` and re-joining reproduces the original string. -/
theorem c2_reorder_identity (M : Str) :
    reorder M ((List.range (field_count M)).map Int.ofNat) false = .ok M ∧
      joinChar ';' (as_list M) = M := by
  refine ⟨?_, joinChar_splitChar ';' M⟩
  have hfc : field_count M = (as_list M).length := field_count_eq_as_list_length M
  have hlen : ((List.range (field_count M)).map Int.ofNat).length = field_count M := by
    simp
  have hloop : reorderLoop (as_list M) ((List.range (field_count M)).map Int.ofNat)
      ((List.range (field_count M)).map Int.ofNat) [] = .ok (as_list M) := by
    rw [hfc]
    have h0 := reorderLoop_identity (as_list M) (as_list M).length 0 (by omega)
    rw [← List.range_eq_range' (as_list M).length] at h0
    simpa using h0
  simp [reorder, hlen, hloop, Except.map]
  exact joinChar_splitChar ';' M

/-- C3: `reorder` with a wrong-length list and dropping disallowed
raises (the code's `AttributeError`, the error the spec's taxonomy
labels `InvalidArgumentError` for exactly this condition) and leaves
the serialized mapping unmodified. -/
theorem c3_reorder_wrong_length (M : Str) (no : List Int)
    (h : no.length ≠ field_count M) :
    reorder M no false = .error .attributeError ∧ reorderPost M no false = M := by
  have hb : (no.length != field_count M) = true := by simp [h]
  have h1 : reorder M no false = .error .attributeError := by
    simp [reorder, hb]
  exact ⟨h1, by simp [reorderPost, h1]⟩

/-- Witness for C3 at a two-entry mapping and a one-element order. -/
theorem c3_reorder_wrong_length_wit :
    [(0 : Int)].length ≠ field_count (("a;b").toList) ∧
      (reorder (("a;b").toList) [(0 : Int)] false = .error .attributeError ∧
        reorderPost (("a;b").toList) [(0 : Int)] false = ("a;b").toList) :=
  ⟨by decide, c3_reorder_wrong_length (("a;b").toList) [(0 : Int)] (by decide)⟩

/-- C4 counterexample: renaming `Name` to `NewName` does alter the entry
literally named `NameExtra` — the pattern `Name(?!,)` matches the
occurrence of `Name` inside `NameExtra` because the next character is
`E`, not a comma, so boundary safety fails. -/
theorem c4_rename_prefix_corrupted :
    rename_field (("NameExtra").toList) (("Name").toList) (("NewName").toList) =
      some (("NewNameExtra").toList) ∧
      some (("NewNameExtra").toList) ≠ some (("NameExtra").toList) :=
  ⟨by rfl, by decide⟩

/-- C4 amended: an occurrence of the old name is left alone exactly when
it is immediately followed by a comma; every other occurrence — at end
of string or inside a longer name such as `NameExtra` — is rewritten. -/
theorem c4_rename_comma_boundary :
    rename_field (("Name,NameExtra,Name").toList) (("Name").toList)
      (("NewName").toList) = some (("Name,NewNameExtra,NewName").toList) := by
  rfl

/-- C5 counterexample: on the empty mapping the single `;`-entry is the
empty string, which has no quoted name, so `is_safe` raises
`IndexError` instead of returning true. -/
theorem c5_is_safe_empty_raises :
    is_safe ([] : Str) = .error .indexError ∧ is_safe ([] : Str) ≠ .ok true :=
  ⟨by rfl, by decide⟩

/-- C5 amended: whenever every entry has a quoted name (so
`field_names` succeeds), `is_safe` returns true iff every parsed field
name has length at most 10; an entry without a quoted name — in
particular the empty mapping — raises `IndexError` instead. -/
theorem c5_is_safe_iff (M : Str) (ns : List Str) (h : field_names M = .ok ns) :
    is_safe M = .ok true ↔ ∀ n ∈ ns, n.length ≤ 10 := by
  simp [is_safe, h, Except.map, List.all_eq_true]

/-- Witness for C5 at a two-entry mapping with quoted names. -/
theorem c5_is_safe_iff_wit :
    field_names (("A \"Alpha\" x;B \"Bo\" y").toList) =
      .ok [("Alpha").toList, ("Bo").toList] ∧
      (is_safe (("A \"Alpha\" x;B \"Bo\" y").toList) = .ok true ↔
        ∀ n ∈ [("Alpha").toList, ("Bo").toList], n.length ≤ 10) :=
  ⟨by rfl, c5_is_safe_iff (("A \"Alpha\" x;B \"Bo\" y").toList)
    [("Alpha").toList, ("Bo").toList] (by rfl)⟩

/-- C6 counterexample: with no registered layer containing the tokens,
the unresolved layer inside the `on` pair is `None`, `str.replace`
receives it and the whole parse fails with `TypeError` — the original
short token is not passed through. -/
theorem c6_unresolved_join_fails_parse :
    parse [] (("select a from T join U on T.id = U.tid where w").toList) =
      .error .typeError := by rfl

/-- C6 amended: an unresolved `join` token becomes a `None` marker in
`join_layers` (not the original token); only when the token never
appears in an `on` pair does the parse still succeed. -/
theorem c6_unresolved_marker_is_none :
    parse [] (("select a from T join U where w").toList) =
      .ok { return_fields := [("a").toList], sel_layer := ("T").toList,
            join_layers := some [none], joins := none,
            where_clause := some (("w").toList), group_by := none } := by
  rfl

/-- C7 counterexample: for `where x group y group by z` the greedy
capture runs to the last ` group` and the `re.sub` then deletes every
occurrence of ` group`, interior ones included, leaving `x y` rather
than the claimed `x group y`. -/
theorem c7_where_interior_group_removed :
    parse [] (("select a from T where x group y group by z").toList) =
      .ok { return_fields := [("a").toList], sel_layer := ("T").toList,
            join_layers := none, joins := none,
            where_clause := some (("x y").toList),
            group_by := some (("z").toList) } ∧
      some (("x y").toList) ≠ some (("x group y").toList) :=
  ⟨by rfl, by decide⟩

/-- C7 amended: the capture extends greedily to the last ` group` when
one is present and every occurrence of ` group` in it is then deleted
(for a single trailing marker this coincides with stripping it); with
no ` group` the text to end of string is preserved verbatim. -/
theorem c7_where_extraction_behavior :
    parse [] (("select a from T where x group by z").toList) =
      .ok { return_fields := [("a").toList], sel_layer := ("T").toList,
            join_layers := none, joins := none,
            where_clause := some (("x").toList),
            group_by := some (("z").toList) } ∧
    parse [] (("select a from T where pred").toList) =
      .ok { return_fields := [("a").toList], sel_layer := ("T").toList,
            join_layers := none, joins := none,
            where_clause := some (("pred").toList), group_by := none } :=
  ⟨by rfl, by rfl⟩

/-- C8: missing `select ... from` is indeed fatal (second conjunct, an
`IndexError`, not a `ParseError` class), but it is not the only fatal
parse error: `select a from T`, which does contain `select ... from`,
is also fatal because the absent `where` clause hits the same unguarded
`[0]`. -/
theorem c8_fatal_beyond_missing_from :
    parse [] (("select a from T").toList) = .error .indexError ∧
      parse [] (("hello world").toList) = .error .indexError :=
  ⟨by rfl, by rfl⟩

/-- C9 counterexample: for the dotted qualified name `T.Name` the
unescaped dot stays a live wildcard in the pattern `T.Name(?!,)`, so
renaming `T.Name` to itself rewrites the lookalike entry text `TxName`
to `T.Name` — the serialized mapping changes, refuting the claimed
identity for every field name. -/
theorem c9_rename_dotted_not_identity :
    rename_field (("TxName").toList) (("T.Name").toList) (("T.Name").toList) =
      some (("T.Name").toList) ∧
      some (("T.Name").toList) ≠ some (("TxName").toList) :=
  ⟨by rfl, by decide⟩

/-- C9 amended: renaming a field to its own name is the identity on the
serialized mapping for every nonempty field name whose compiled
pattern is purely literal — names made of word characters, spaces, and
the `$.`/`$_` qualifier pairs the source escapes; a name with an
unescaped dot compiles to a wildcard and can rewrite lookalike text
instead. -/
theorem c9_rename_identity_literal (M a : Str) (h1 : a ≠ [])
    (h2 : patAtoms (escapeJoinSeps a) = some (a.map PatAtom.lit)) :
    rename_field M a a = some M := by
  simp only [rename_field, h2]
  have hne : a.map PatAtom.lit ≠ [] := by
    simp only [ne_eq, List.map_eq_nil_iff]
    exact h1
  rw [if_neg hne, subNotComma_lit_self a h1 M]

/-- Witness for C9 at the join-qualified name `Par$.Key`, whose escaped
pattern is literal, on a mapping holding the name both mid-entry and
before a comma. -/
theorem c9_rename_identity_literal_wit :
    (("Par$.Key").toList ≠ ([] : Str)) ∧
      patAtoms (escapeJoinSeps (("Par$.Key").toList)) =
        some ((("Par$.Key").toList).map PatAtom.lit) ∧
      rename_field (("Par$.Key x,Par$.Key,-1").toList) (("Par$.Key").toList)
        (("Par$.Key").toList) = some (("Par$.Key x,Par$.Key,-1").toList) :=
  ⟨by decide, by decide,
    c9_rename_identity_literal (("Par$.Key x,Par$.Key,-1").toList)
      (("Par$.Key").toList) (by decide) (by decide)⟩

/-- C10 counterexample: `-1` lies outside the range `0 .. field_count-1`
of current entries, yet `reorder` does not raise — Python negative
indexing wraps around, and the mapping is modified. -/
theorem c10_negative_index_wraps :
    reorder (("a;b").toList) [(-1 : Int), 0] false = .ok (("b;a").toList) ∧
      reorderPost (("a;b").toList) [(-1 : Int), 0] false ≠ ("a;b").toList :=
  ⟨by rfl, by decide⟩

/-- C10 amended: for indices Python itself rejects (`n ≥ field_count` or
`n < -field_count`), and provided the length guard passes (`drop` true
or a full-length list), `reorder` raises `IndexError` and the mapping is
unchanged — the reordered entries are accumulated in a local list and
written back only after every index has been read. -/
theorem c10_reorder_bad_index_atomic (M : Str) (no : List Int) (drop : Bool)
    (hd : drop = true ∨ no.length = field_count M)
    (hbad : ∃ n ∈ no, n < -((field_count M : Int)) ∨ ((field_count M : Int)) ≤ n) :
    reorder M no drop = .error .indexError ∧ reorderPost M no drop = M := by
  have hfc : field_count M = (as_list M).length := field_count_eq_as_list_length M
  have hbad2 : ∃ n ∈ no, n < -(((as_list M).length : Int)) ∨
      (((as_list M).length : Int)) ≤ n := by
    rw [hfc] at hbad
    exact hbad
  have hloop := reorderLoop_bad_index (as_list M) no no [] hbad2
  have hcond : (!drop && (no.length != field_count M)) = false := by
    rcases hd with rfl | he
    · rfl
    · simp [he]
  have h1 : reorder M no drop = .error .indexError := by
    simp [reorder, hcond, hloop, Except.map]
  exact ⟨h1, by simp [reorderPost, h1]⟩

/-- Witness for C10 at a two-entry mapping and the order `[5, 0]`. -/
theorem c10_reorder_bad_index_atomic_wit :
    (false = true ∨ [(5 : Int), 0].length = field_count (("a;b").toList)) ∧
      (∃ n ∈ [(5 : Int), 0], n < -((field_count (("a;b").toList) : Int)) ∨
        ((field_count (("a;b").toList) : Int)) ≤ n) ∧
      (reorder (("a;b").toList) [(5 : Int), 0] false = .error .indexError ∧
        reorderPost (("a;b").toList) [(5 : Int), 0] false = ("a;b").toList) :=
  ⟨by decide, by decide,
    c10_reorder_bad_index_atomic (("a;b").toList) [(5 : Int), 0] false
      (by decide) (by decide)⟩
